import Mathlib

set_option maxRecDepth 10000

/-!
Verification of the two-hand note-partitioning engine of `separate.py`.

The source operates on note tuples `(pitch, start, end, velocity)` where
`pitch` and `velocity` are integers and `start`/`end` are Python floats
(seconds).  Here times and costs are modelled as exact rationals `ℚ`
(the float literals `0.2`, `0.8`, `0.9`, `2.0` of the source become
`1/5`, `4/5`, `9/10`, `2`); pitches and velocities are integers `ℤ`.
`end` is a Lean keyword, so the offset field is named `stop`.
-/

namespace Separate

/-- A note tuple `(pitch, start, end, velocity)` as used in `separate.py`.
The `end` component is called `stop` here (`end` is a Lean keyword). -/
structure Note where
  pitch : Int
  start : ℚ
  stop : ℚ
  velocity : Int
deriving DecidableEq, Repr

/-- Hand labels, the strings `'left'` / `'right'` of the source. -/
inductive Hand where
  | left
  | right
deriving DecidableEq, Repr

/-- Python `min(list)` with a default for the empty list
(the source always guards the empty case with `if current_pitches`). -/
def pyMin (l : List Int) (dflt : Int) : Int :=
  match l with
  | [] => dflt
  | x :: xs => xs.foldl min x

/-- Python `max(list)` with a default for the empty list. -/
def pyMax (l : List Int) (dflt : Int) : Int :=
  match l with
  | [] => dflt
  | x :: xs => xs.foldl max x

/-- Sort key of `notes.sort(key=lambda x: (x[1], x[0]))`: lexicographic on
`(start, pitch)`. -/
def noteKeyLE (a b : Note) : Prop :=
  a.start < b.start ∨ (a.start = b.start ∧ a.pitch ≤ b.pitch)

instance noteKeyLE.instDecidableRel : DecidableRel noteKeyLE := by
  intro a b
  unfold noteKeyLE
  infer_instance

/-- `notes.sort(key=lambda x: (x[1], x[0]))`: Python's stable ascending
sort by key.  A stable sort by a key is unique as a function of the input,
and insertion sort with the total preorder `noteKeyLE` realizes it. -/
def sortNotes (notes : List Note) : List Note :=
  notes.insertionSort noteKeyLE

/-- The per-hand state of lines 44-54 of `separate.py`:
finger usage (distinct pitch classes), spread, min and max pitch,
with the current note's pitch as the default for an empty active set. -/
structure HandState where
  fingers_used : Nat
  spread : Int
  min_pitch : Int
  max_pitch : Int
deriving DecidableEq, Repr

/-- Lines 44-54: derived state of one hand from the pitches of its pruned
active set (`current_pitches`) and the pitch of the note being placed. -/
def handStateOf (current_pitches : List Int) (pitch : Int) : HandState :=
  { fingers_used := ((current_pitches.map (fun p => p % 12)).dedup).length
    spread := if current_pitches = [] then 0
              else pyMax current_pitches pitch - pyMin current_pitches pitch
    min_pitch := pyMin current_pitches pitch
    max_pitch := pyMax current_pitches pitch }

/-- Line 41: `active_notes[hand] = [n for n in active_notes[hand] if n[3] > start]`.
Note that `n[3]` is the *velocity* component of the tuple
`(pitch, start, end, velocity)`, not the offset `n[2]`. -/
def pruneActive (active : List Note) (start : ℚ) : List Note :=
  active.filter (fun n => decide ((n.velocity : ℚ) > start))

/-- Lines 59-74: the cost of one hand in the greedy engine.
`state` is that hand's `hand_states[hand]`; `current_pitches` is the
variable of that name as it stands when line 58's loop runs — the source
never rebinds it inside this loop, so it still holds the *last* value from
the loop at line 40, i.e. the right hand's pruned pitch list. -/
def greedyHandCost (state : HandState) (current_pitches : List Int) (hand : Hand)
    (pitch : Int) (max_fingers : Nat) (allowed_spread : Int) : ℚ :=
  let new_min : Int := if current_pitches = [] then pitch else min state.min_pitch pitch
  let new_max : Int := if current_pitches = [] then pitch else max state.max_pitch pitch
  let new_span : Int := new_max - new_min
  let span_cost : ℚ := ((max 0 (new_span - allowed_spread)) ^ 2 : Int)
  let finger_cost : ℚ :=
    if state.fingers_used ≥ max_fingers ∧
        pitch % 12 ∉ current_pitches.map (fun p => p % 12) then 2 else 0
  let register_cost : ℚ :=
    if (hand = Hand.left ∧ pitch ≥ 60) ∨ (hand = Hand.right ∧ pitch < 60) then 4/5 else 0
  let density_cost : ℚ := (1/5) * current_pitches.length
  span_cost + finger_cost + register_cost + density_cost

/-- Lines 77-90: the hysteresis decision.  `nL`, `nR` are
`len(left_hand)`, `len(right_hand)` at the time of the decision. -/
def greedyDecision (costL costR : ℚ) (nL nR : Nat) : Hand :=
  if costL < costR * (9/10) then Hand.left
  else if costR < costL * (9/10) then Hand.right
  else if nL > nR then Hand.right else Hand.left

/-- The mutable state of `assign_notes_to_hands`: the two output lists and
the two `active_notes` lists. -/
structure GreedyState where
  leftHand : List Note
  rightHand : List Note
  activeLeft : List Note
  activeRight : List Note
deriving DecidableEq, Repr

def greedyInit : GreedyState := ⟨[], [], [], []⟩

/-- Lines 38-74: the pair `(costs['left'], costs['right'])` computed for
`note` from state `s`.  The hand states are built from each hand's pruned
active set, but `current_pitches` (used by the cost loop) retains the
right hand's pitch list from the last iteration of the first loop. -/
def greedyCosts (s : GreedyState) (note : Note) (max_fingers : Nat)
    (allowed_spread : Int) : ℚ × ℚ :=
  let pitchesL := (pruneActive s.activeLeft note.start).map (fun n => n.pitch)
  let pitchesR := (pruneActive s.activeRight note.start).map (fun n => n.pitch)
  let stateL := handStateOf pitchesL note.pitch
  let stateR := handStateOf pitchesR note.pitch
  let current_pitches := pitchesR
  (greedyHandCost stateL current_pitches Hand.left note.pitch max_fingers allowed_spread,
   greedyHandCost stateR current_pitches Hand.right note.pitch max_fingers allowed_spread)

/-- One iteration of the loop at line 35 of `assign_notes_to_hands`:
prune both active sets at the note's start, compute both costs, decide,
and append the note to the chosen hand's output and active lists. -/
def greedyStep (max_fingers : Nat) (allowed_spread : Int) (s : GreedyState)
    (note : Note) : GreedyState :=
  match greedyDecision (greedyCosts s note max_fingers allowed_spread).1
      (greedyCosts s note max_fingers allowed_spread).2
      s.leftHand.length s.rightHand.length with
  | Hand.left =>
      { leftHand := s.leftHand ++ [note], rightHand := s.rightHand,
        activeLeft := pruneActive s.activeLeft note.start ++ [note],
        activeRight := pruneActive s.activeRight note.start }
  | Hand.right =>
      { leftHand := s.leftHand, rightHand := s.rightHand ++ [note],
        activeLeft := pruneActive s.activeLeft note.start,
        activeRight := pruneActive s.activeRight note.start ++ [note] }

/-- `assign_notes_to_hands` (lines 6-92), taking the already-flattened
note list (the extraction from `midi_data.instruments` is the external
input boundary).  Sorts by `(start, pitch)` and runs the greedy loop. -/
def assign_notes_to_hands (notes : List Note) (max_fingers : Nat := 5)
    (allowed_spread : Int := 8) : List Note × List Note :=
  let sorted := sortNotes notes
  let final := sorted.foldl (greedyStep max_fingers allowed_spread) greedyInit
  (final.leftHand, final.rightHand)

/-! ## The dynamic-programming engine (`dynamic_programming_assign_hands`) -/

/-- Lines 184-196 of `calculate_cost`: collect the previously assigned
notes that are active for `hand` at time `start`.  The source iterates
over `current_assignments.items()` and never uses the stored value
(`prev`), only the key `(n_idx, hand_assigned)`, so this takes the list
of dictionary keys in insertion order.  Entries whose index is not in
`previous_notes` are skipped, then the hand is matched, then the note is
kept iff its end time is after `start`. -/
def activeAssigned (keys : List (Nat × Hand)) (hand : Hand)
    (previous_notes : List Note) (start : ℚ) : List Note :=
  keys.filterMap (fun k =>
    if h : k.1 < previous_notes.length then
      if k.2 = hand then
        let assignedNote := previous_notes.get ⟨k.1, h⟩
        if assignedNote.stop > start then some assignedNote else none
      else none
    else none)

/-- `calculate_cost` (lines 167-220).  `current_assignments` is the
`hand_assignment` dictionary as a list of `(key, value)` pairs in
insertion order; the loop at line 188 never reads the stored value, so
only the keys are passed on. -/
def calculate_cost (note : Note) (hand : Hand)
    (current_assignments : List ((Nat × Hand) × Hand))
    (previous_notes : List Note) (max_fingers : Nat) (allowed_spread : Int) : ℚ :=
  let assigned_hand_notes :=
    activeAssigned (current_assignments.map (fun e => e.1)) hand previous_notes note.start
  let current_pitches := assigned_hand_notes.map (fun n => n.pitch)
  let finger_positions := (current_pitches.map (fun p => p % 12)).dedup
  let min_pitch := pyMin current_pitches note.pitch
  let max_pitch := pyMax current_pitches note.pitch
  let new_min : Int := if current_pitches = [] then note.pitch else min min_pitch note.pitch
  let new_max : Int := if current_pitches = [] then note.pitch else max max_pitch note.pitch
  let new_span : Int := new_max - new_min
  let span_cost : ℚ := ((max 0 (new_span - allowed_spread)) ^ 2 : Int)
  let finger_cost : ℚ :=
    if finger_positions.length ≥ max_fingers ∧
        note.pitch % 12 ∉ finger_positions.map (fun p => p % 12) then 2 else 0
  let register_cost : ℚ :=
    if (hand = Hand.left ∧ note.pitch ≥ 60) ∨ (hand = Hand.right ∧ note.pitch < 60)
    then 4/5 else 0
  let density_cost : ℚ := (1/5) * current_pitches.length
  span_cost + finger_cost + register_cost + density_cost

/-- Lines 133-140, unrolled for the two-element loop
`for prev_hand in ['left', 'right']`.  `dp[i][hand]` starts at
`float('inf')`, so the `'left'` iteration always replaces it
(`dp[i-1]['left'] + c < inf`); the `'right'` iteration replaces it iff
`dp[i-1]['right'] + c` is strictly smaller.  Returns the final cell value
and the stored predecessor `hand_assignment[i, hand]`. -/
def dpCell (dpL dpR c : ℚ) : ℚ × Hand :=
  if dpR + c < dpL + c then (dpR + c, Hand.right) else (dpL + c, Hand.left)

/-- The evolving state of the DP loop: the row `dp[i-1]` (always finite,
see `dpCell`) and the `hand_assignment` dictionary as an insertion-order
list of `((i, hand), prev_hand)` entries. -/
structure DPState where
  dpL : ℚ
  dpR : ℚ
  assignments : List ((Nat × Hand) × Hand)
deriving DecidableEq, Repr

/-- Base case (line 122): `dp[-1] = {'left': 0, 'right': 0}`, no
assignments recorded yet. -/
def dpInit : DPState := ⟨0, 0, []⟩

/-- One iteration of the loop at line 126 (index `i`): for each hand,
compute the cost once via `calculate_cost` with `previous_notes =
notes[:i]`, take the best transition from `dp[i-1]`, and record the
predecessor under key `(i, hand)`.  When the `'right'` cost is computed
the dictionary already holds the `(i, 'left')` entry, exactly as in the
source; the guard in `activeAssigned` skips it because `i` is not an
index of `notes[:i]`. -/
def dpStep (notes : List Note) (max_fingers : Nat) (allowed_spread : Int)
    (acc : DPState) (i : Nat) : DPState :=
  let note := notes.getD i ⟨0, 0, 0, 0⟩
  let cL := calculate_cost note Hand.left acc.assignments (notes.take i)
    max_fingers allowed_spread
  let cellL := dpCell acc.dpL acc.dpR cL
  let asgL := acc.assignments ++ [((i, Hand.left), cellL.2)]
  let cR := calculate_cost note Hand.right asgL (notes.take i)
    max_fingers allowed_spread
  let cellR := dpCell acc.dpL acc.dpR cR
  ⟨cellL.1, cellR.1, asgL ++ [((i, Hand.right), cellR.2)]⟩

/-- The DP table fill: `for i in range(n_notes)` over the first `n`
indices (`n = notes.length` in `dynamic_programming_assign_hands`). -/
def dpRun (notes : List Note) (max_fingers : Nat) (allowed_spread : Int)
    (n : Nat) : DPState :=
  (List.range n).foldl (dpStep notes max_fingers allowed_spread) dpInit

/-- Dictionary lookup `hand_assignment[i, hand]` for the backtrack walk.
Each key is written exactly once per `dpStep` (the in-loop overwrites of
lines 138-140 are already resolved by `dpCell`), so the first match is
the dictionary entry. A missing key would raise `KeyError` in Python;
the default is never reached for the keys the loop recorded. -/
def lookupAssignment (asg : List ((Nat × Hand) × Hand)) (key : Nat × Hand) : Hand :=
  match asg.find? (fun e => decide (e.1 = key)) with
  | some e => e.2
  | none => Hand.left

/-- Lines 143-154: labels of notes `0..i`, given the final hand of note
`i`; `label i = final`, and `label j = hand_assignment[j+1, label (j+1)]`
walking backward. -/
def backtrack (asg : List ((Nat × Hand) × Hand)) : Nat → Hand → List Hand
  | 0, h => [h]
  | Nat.succ i, h => backtrack asg i (lookupAssignment asg (i + 1, h)) ++ [h]

/-- Lines 156-163: distribute `notes[i]` to the left or right output
list according to `final_hand_assignments[i]`. -/
def splitByHand : List (Note × Hand) → List Note × List Note
  | [] => ([], [])
  | (n, h) :: rest =>
      let split := splitByHand rest
      if h = Hand.left then (n :: split.1, split.2) else (split.1, n :: split.2)

/-- `dynamic_programming_assign_hands` (lines 94-165): sort, fill the DP
table, pick the final hand (`left` on ties, line 144), backtrack, and
split the notes by label. -/
def dynamic_programming_assign_hands (notes : List Note) (max_fingers : Nat := 5)
    (allowed_spread : Int := 8) : List Note × List Note :=
  let sorted := sortNotes notes
  let n := sorted.length
  if n = 0 then ([], [])
  else
    let acc := dpRun sorted max_fingers allowed_spread n
    let finalHand := if acc.dpL ≤ acc.dpR then Hand.left else Hand.right
    let labels := backtrack acc.assignments (n - 1) finalHand
    splitByHand (sorted.zip labels)

/-- Line 149: `final_cost = min(dp[n-1]['left'], dp[n-1]['right'])`, the
minimal cumulative cost the DP engine reports.  (For the empty input the
source returns before computing it; this definition then yields
`min 0 0 = 0` from the base row.) -/
def dpFinalCost (notes : List Note) (max_fingers : Nat) (allowed_spread : Int) : ℚ :=
  let sorted := sortNotes notes
  let acc := dpRun sorted max_fingers allowed_spread sorted.length
  min acc.dpL acc.dpR

/-! ## Definitions for the statements of the claims

`activeSetSpec`, `costModelSpec` and `decisionRuleSpec` are written from
the specification's words, to be compared with the source translations
above.  `canonAssignments`, `dpCostModel`, `dpPathCost`, `greedyLabels`
and `greedyCumulativeCost` package quantities the claims talk about. -/

/-- Modelled from the spec (§4.2 Hand-State Tracker): "return the
ActiveSet filtered to notes whose `offset > t`"; the inclusion test is
strict `offset > t`. -/
def activeSetSpec (assigned : List Note) (t : ℚ) : List Note :=
  assigned.filter (fun m => decide (m.stop > t))

/-- Modelled from the spec (§4.3 Cost Model): span, finger, register and
density costs of assigning `note` to `hand` whose active set is
`activeSet`. -/
def costModelSpec (activeSet : List Note) (hand : Hand) (note : Note)
    (max_fingers : Nat) (allowed_spread : Int) : ℚ :=
  let pitches := activeSet.map (fun m => m.pitch)
  let new_span : Int :=
    if pitches = [] then 0
    else max (pyMax pitches note.pitch) note.pitch - min (pyMin pitches note.pitch) note.pitch
  let span_cost : ℚ := ((max 0 (new_span - allowed_spread)) ^ 2 : Int)
  let finger_cost : ℚ :=
    if ((pitches.map (fun p => p % 12)).dedup).length ≥ max_fingers ∧
        note.pitch % 12 ∉ pitches.map (fun p => p % 12) then 2 else 0
  let register_cost : ℚ :=
    if (hand = Hand.left ∧ note.pitch ≥ 60) ∨ (hand = Hand.right ∧ note.pitch < 60)
    then 4/5 else 0
  let density_cost : ℚ := (1/5) * activeSet.length
  span_cost + finger_cost + register_cost + density_cost

/-- Modelled from the spec (§4.4 step 3): Left if
`cost_left < 0.9 * cost_right`, Right if `cost_right < 0.9 * cost_left`,
otherwise the hand holding fewer notes, ties toward Left. -/
def decisionRuleSpec (costL costR : ℚ) (nL nR : Nat) : Hand :=
  if costL < (9/10) * costR then Hand.left
  else if costR < (9/10) * costL then Hand.right
  else if nL < nR then Hand.left
  else if nR < nL then Hand.right
  else Hand.left

/-- The canonical shape of the `hand_assignment` dictionary's key list
after the DP loop has processed indices `0..i-1`: both hands recorded
for every index, in insertion order.  The stored values are irrelevant
to `calculate_cost` (the source never reads them), so a dummy value
`Hand.left` is used. -/
def canonAssignments : Nat → List ((Nat × Hand) × Hand)
  | 0 => []
  | Nat.succ i => canonAssignments i ++ [((i, Hand.left), Hand.left), ((i, Hand.right), Hand.left)]

/-- The cost the DP engine charges for putting note `i` on `hand`: the
`calculate_cost` call of line 131, with the dictionary in its canonical
shape. -/
def dpCostModel (notes : List Note) (max_fingers : Nat) (allowed_spread : Int)
    (i : Nat) (hand : Hand) : ℚ :=
  calculate_cost (notes.getD i ⟨0, 0, 0, 0⟩) hand (canonAssignments i)
    (notes.take i) max_fingers allowed_spread

/-- Cumulative cost of a full label sequence under the DP engine's cost
model (`dpCostModel` at every index). -/
def dpPathCost (notes : List Note) (max_fingers : Nat) (allowed_spread : Int)
    (labels : List Hand) : ℚ :=
  ((List.range notes.length).map
    (fun i => dpCostModel notes max_fingers allowed_spread i (labels.getD i Hand.left))).sum

/-- The hand chosen by the greedy engine for each note of the (already
sorted) list, in processing order; each decision is the one `greedyStep`
acts on. -/
def greedyLabels (max_fingers : Nat) (allowed_spread : Int) :
    GreedyState → List Note → List Hand
  | _, [] => []
  | s, note :: rest =>
      let c := greedyCosts s note max_fingers allowed_spread
      greedyDecision c.1 c.2 s.leftHand.length s.rightHand.length ::
        greedyLabels max_fingers allowed_spread (greedyStep max_fingers allowed_spread s note) rest

/-- Modelled from the spec (§8 DP optimality): "the cumulative cost of
the greedy engine's assignment computed under the same cost model …
both evaluate cost against their own histories" — the sum, over the
greedy engine's run, of the cost it computed for the hand it chose. -/
def greedyCumulativeCost (max_fingers : Nat) (allowed_spread : Int) :
    GreedyState → List Note → ℚ
  | _, [] => 0
  | s, note :: rest =>
      let c := greedyCosts s note max_fingers allowed_spread
      (match greedyDecision c.1 c.2 s.leftHand.length s.rightHand.length with
       | Hand.left => c.1
       | Hand.right => c.2) +
        greedyCumulativeCost max_fingers allowed_spread
          (greedyStep max_fingers allowed_spread s note) rest

/-- The greedy engine's own cumulative cost on an input. -/
def greedyAssignmentCost (notes : List Note) (max_fingers : Nat)
    (allowed_spread : Int) : ℚ :=
  greedyCumulativeCost max_fingers allowed_spread greedyInit (sortNotes notes)

/-! ## Theorems -/

/-- C1: the claim says both engines prune a hand's active set with the
strict test `offset > t`.  The DP cost function does (`activeAssigned`,
third conjunct, agreeing with the spec-side `activeSetSpec`), but the
greedy engine's line 41 tests `n[3] > start`, the *velocity* field of the
`(pitch, start, end, velocity)` tuple, instead of the offset `n[2]`: a
note whose offset `1/2` is not strictly greater than `t = 1/2` stays in
the greedy active set because its velocity `100` exceeds `t`. -/
theorem C1_active_set_filter_uses_velocity_not_offset :
    pruneActive [⟨60, 0, 1/2, 100⟩] (1/2) = [⟨60, 0, 1/2, 100⟩]
    ∧ activeSetSpec [⟨60, 0, 1/2, 100⟩] (1/2) = []
    ∧ activeAssigned [(0, Hand.left)] Hand.left [⟨60, 0, 1/2, 100⟩] (1/2) = [] := by
  refine ⟨?_, ?_, ?_⟩
  · with_unfolding_all rfl
  · with_unfolding_all rfl
  · with_unfolding_all rfl

/-- C2: the claim's cost formula (here `costModelSpec`, from the spec's
words) holds for the DP engine's `calculate_cost`, but not for the greedy
engine.  After note `(50, 0, 10, 100)` is assigned to the left hand, the
left hand's active set at onset `1` is that note (still sounding until
`10`), so the claim's formula gives `density_cost = 1/5` for the left
hand.  The greedy code instead evaluates the left-hand cost with the
stale `current_pitches` variable — the right hand's (empty) pitch list —
and returns `0`. -/
theorem C2_greedy_cost_uses_stale_right_hand_pitches :
    (greedyStep 5 8 greedyInit ⟨50, 0, 10, 100⟩).activeLeft = [⟨50, 0, 10, 100⟩]
    ∧ (greedyStep 5 8 greedyInit ⟨50, 0, 10, 100⟩).activeRight = []
    ∧ activeSetSpec [⟨50, 0, 10, 100⟩] 1 = [⟨50, 0, 10, 100⟩]
    ∧ (greedyCosts (greedyStep 5 8 greedyInit ⟨50, 0, 10, 100⟩) ⟨52, 1, 2, 100⟩ 5 8).1 = 0
    ∧ costModelSpec [⟨50, 0, 10, 100⟩] Hand.left ⟨52, 1, 2, 100⟩ 5 8 = 1/5 := by
  refine ⟨?_, ?_, ?_, ?_, ?_⟩
  · with_unfolding_all rfl
  · with_unfolding_all rfl
  · with_unfolding_all rfl
  · with_unfolding_all rfl
  · with_unfolding_all rfl

/-- C6 (counterexample): with notes `(60, 0, 10, 64)` and
`(72, 1/2, 10, 64)` the DP engine reports minimal cost `81/5 = 16.2`
(its cost model counts the first note as active in *both* hands, so the
second note always pays the span penalty), while the greedy engine's own
cumulative cost is `1` (it parks the second note on the empty left
hand).  The claimed inequality `dp ≤ greedy` fails. -/
theorem C6_counterexample :
    dpFinalCost [⟨60, 0, 10, 64⟩, ⟨72, 1/2, 10, 64⟩] 5 8 = 81/5
    ∧ greedyAssignmentCost [⟨60, 0, 10, 64⟩, ⟨72, 1/2, 10, 64⟩] 5 8 = 1
    ∧ ¬ (dpFinalCost [⟨60, 0, 10, 64⟩, ⟨72, 1/2, 10, 64⟩] 5 8
          ≤ greedyAssignmentCost [⟨60, 0, 10, 64⟩, ⟨72, 1/2, 10, 64⟩] 5 8) := by
  refine ⟨?_, ?_, ?_⟩
  · with_unfolding_all rfl
  · with_unfolding_all rfl
  · exact of_decide_eq_false (by with_unfolding_all rfl)

/-- C7: five sequential non-overlapping half-second notes at pitches
64, 66, 68, 70, 72 (each onset equal to the previous offset, velocity
64) are all assigned to the right hand by the greedy engine with the
default parameters; the left hand is empty. -/
theorem C7_register_pressure :
    assign_notes_to_hands
      [⟨64, 0, 1/2, 64⟩, ⟨66, 1/2, 1, 64⟩, ⟨68, 1, 3/2, 64⟩,
       ⟨70, 3/2, 2, 64⟩, ⟨72, 2, 5/2, 64⟩] 5 8
    = ([], [⟨64, 0, 1/2, 64⟩, ⟨66, 1/2, 1, 64⟩, ⟨68, 1, 3/2, 64⟩,
            ⟨70, 3/2, 2, 64⟩, ⟨72, 2, 5/2, 64⟩]) := by
  with_unfolding_all rfl

/-- C8 (counterexample): on an input containing a malformed note
(`offset = 1/2 ≤ onset = 1`) neither engine rejects: both run to
completion and return a partition containing the malformed note, so no
validation failure is reported at ingestion. -/
theorem C8_counterexample :
    assign_notes_to_hands [⟨60, 1, 1/2, 64⟩] 5 8 = ([], [⟨60, 1, 1/2, 64⟩])
    ∧ dynamic_programming_assign_hands [⟨60, 1, 1/2, 64⟩] 5 8
        = ([], [⟨60, 1, 1/2, 64⟩]) := by
  refine ⟨?_, ?_⟩
  · with_unfolding_all rfl
  · with_unfolding_all rfl

/-- C9: on the empty input both engines return two empty streams; the DP
engine takes its `n_notes == 0` early return (line 116), before any
table is built. -/
theorem C9_empty_input :
    assign_notes_to_hands [] 5 8 = ([], [])
    ∧ dynamic_programming_assign_hands [] 5 8 = ([], []) := by
  exact ⟨rfl, rfl⟩

/-- Helper: each greedy step appends the note to exactly one hand's
output list and leaves the other unchanged. -/
lemma greedyStep_hands (mf : Nat) (sp : Int) (s : GreedyState) (note : Note) :
    ((greedyStep mf sp s note).leftHand = s.leftHand ++ [note]
      ∧ (greedyStep mf sp s note).rightHand = s.rightHand)
    ∨ ((greedyStep mf sp s note).leftHand = s.leftHand
      ∧ (greedyStep mf sp s note).rightHand = s.rightHand ++ [note]) := by
  unfold greedyStep
  generalize greedyCosts s note mf sp = c
  cases greedyDecision c.1 c.2 s.leftHand.length s.rightHand.length
  · exact Or.inl ⟨rfl, rfl⟩
  · exact Or.inr ⟨rfl, rfl⟩

/-- Helper: total output length of the greedy fold. -/
lemma greedy_foldl_len (mf : Nat) (sp : Int) (l : List Note) : ∀ (s : GreedyState),
    (l.foldl (greedyStep mf sp) s).leftHand.length
      + (l.foldl (greedyStep mf sp) s).rightHand.length
      = s.leftHand.length + s.rightHand.length + l.length := by
  induction l with
  | nil => intro s; simp
  | cons note rest ih =>
      intro s
      rw [List.foldl_cons, ih (greedyStep mf sp s note)]
      rcases greedyStep_hands mf sp s note with ⟨h1, h2⟩ | ⟨h1, h2⟩ <;>
        simp [h1, h2] <;> omega

/-- Helper: multiplicity of each note value across the greedy fold. -/
lemma greedy_foldl_count (mf : Nat) (sp : Int) (v : Note) (l : List Note) :
    ∀ (s : GreedyState),
    (l.foldl (greedyStep mf sp) s).leftHand.count v
      + (l.foldl (greedyStep mf sp) s).rightHand.count v
      = s.leftHand.count v + s.rightHand.count v + l.count v := by
  induction l with
  | nil => intro s; simp
  | cons note rest ih =>
      intro s
      rw [List.foldl_cons, ih (greedyStep mf sp s note)]
      rcases greedyStep_hands mf sp s note with ⟨h1, h2⟩ | ⟨h1, h2⟩ <;>
        simp [h1, h2, List.count_append, List.count_cons] <;> omega

/-- Helper: the greedy engine partitions its input (lengths and
multiplicities). -/
lemma greedy_partition (notes : List Note) (mf : Nat) (sp : Int) :
    (assign_notes_to_hands notes mf sp).1.length
      + (assign_notes_to_hands notes mf sp).2.length = notes.length
    ∧ ∀ v : Note,
      (assign_notes_to_hands notes mf sp).1.count v
        + (assign_notes_to_hands notes mf sp).2.count v = notes.count v := by
  constructor
  · simp only [assign_notes_to_hands]
    rw [greedy_foldl_len]
    simp [greedyInit, sortNotes]
  · intro v
    simp only [assign_notes_to_hands]
    rw [greedy_foldl_count]
    have hperm := List.perm_insertionSort noteKeyLE notes
    simp [greedyInit, sortNotes, hperm.count_eq]

/-- Helper: length of a backtrack label list. -/
lemma backtrack_length (asg : List ((Nat × Hand) × Hand)) : ∀ (i : Nat) (h : Hand),
    (backtrack asg i h).length = i + 1 := by
  intro i
  induction i with
  | zero => intro h; rfl
  | succ i ih => intro h; simp [backtrack, ih]

/-- Helper: `splitByHand` partitions the first components of its input. -/
lemma splitByHand_parts (pairs : List (Note × Hand)) :
    ((splitByHand pairs).1.length + (splitByHand pairs).2.length = pairs.length)
    ∧ ∀ v : Note,
      (splitByHand pairs).1.count v + (splitByHand pairs).2.count v
        = (pairs.map Prod.fst).count v := by
  induction pairs with
  | nil => simp [splitByHand]
  | cons p rest ih =>
      obtain ⟨n, h⟩ := p
      obtain ⟨ih1, ih2⟩ := ih
      by_cases hh : h = Hand.left
      · constructor
        · simp [splitByHand, hh]; omega
        · intro v
          have := ih2 v
          simp only [splitByHand, hh, if_pos rfl] at *
          simp [List.count_cons]
          omega
      · constructor
        · simp [splitByHand, hh]; omega
        · intro v
          have := ih2 v
          simp only [splitByHand, if_neg hh] at *
          simp [List.count_cons]
          omega

/-- Helper: the DP engine partitions its input (lengths and
multiplicities). -/
lemma dp_partition (notes : List Note) (mf : Nat) (sp : Int) :
    (dynamic_programming_assign_hands notes mf sp).1.length
      + (dynamic_programming_assign_hands notes mf sp).2.length = notes.length
    ∧ ∀ v : Note,
      (dynamic_programming_assign_hands notes mf sp).1.count v
        + (dynamic_programming_assign_hands notes mf sp).2.count v = notes.count v := by
  by_cases h0 : (sortNotes notes).length = 0
  · have hnil : notes = [] := by
      have hlen : (sortNotes notes).length = notes.length :=
        List.length_insertionSort noteKeyLE notes
      exact List.length_eq_zero.mp (hlen ▸ h0)
    subst hnil
    exact ⟨rfl, fun v => rfl⟩
  · have hlen : (sortNotes notes).length = notes.length :=
      List.length_insertionSort noteKeyLE notes
    have hperm : (sortNotes notes).Perm notes := List.perm_insertionSort noteKeyLE notes
    simp only [dynamic_programming_assign_hands]
    rw [if_neg h0]
    have hlab : (backtrack
        (dpRun (sortNotes notes) mf sp (sortNotes notes).length).assignments
        ((sortNotes notes).length - 1)
        (if (dpRun (sortNotes notes) mf sp (sortNotes notes).length).dpL
            ≤ (dpRun (sortNotes notes) mf sp (sortNotes notes).length).dpR
         then Hand.left else Hand.right)).length = (sortNotes notes).length := by
      rw [backtrack_length]
      omega
    constructor
    · rw [(splitByHand_parts _).1, List.length_zip, hlab, min_self, hlen]
    · intro v
      rw [(splitByHand_parts _).2 v, List.map_fst_zip _ _ (le_of_eq hlab.symm)]
      exact hperm.count_eq v

/-- C4: each engine returns a pair of streams that partition the input:
the lengths add up to the input length, and every note value (its full
pitch/onset/offset/velocity tuple) occurs in the two outputs jointly
exactly as often as in the input — notes are moved, never altered. -/
theorem C4_partition_completeness (notes : List Note) (mf : Nat) (sp : Int) :
    ((assign_notes_to_hands notes mf sp).1.length
        + (assign_notes_to_hands notes mf sp).2.length = notes.length
      ∧ ∀ v : Note,
        (assign_notes_to_hands notes mf sp).1.count v
          + (assign_notes_to_hands notes mf sp).2.count v = notes.count v)
    ∧ ((dynamic_programming_assign_hands notes mf sp).1.length
        + (dynamic_programming_assign_hands notes mf sp).2.length = notes.length
      ∧ ∀ v : Note,
        (dynamic_programming_assign_hands notes mf sp).1.count v
          + (dynamic_programming_assign_hands notes mf sp).2.count v = notes.count v) :=
  ⟨greedy_partition notes mf sp, dp_partition notes mf sp⟩

/-- C3: the greedy decision agrees with the spec's rule (hysteresis at
`0.9`, then the hand with fewer notes, ties to Left), and the chosen
hand's list is extended in place while the other is untouched — the
assignment is immediate; since `greedyStep` only ever appends, it is
never revised. -/
theorem C3_greedy_decision_rule :
    (∀ (costL costR : ℚ) (nL nR : Nat),
      greedyDecision costL costR nL nR = decisionRuleSpec costL costR nL nR)
    ∧ ∀ (mf : Nat) (sp : Int) (s : GreedyState) (note : Note),
      (greedyDecision (greedyCosts s note mf sp).1 (greedyCosts s note mf sp).2
          s.leftHand.length s.rightHand.length = Hand.left →
        (greedyStep mf sp s note).leftHand = s.leftHand ++ [note]
        ∧ (greedyStep mf sp s note).rightHand = s.rightHand)
      ∧ (greedyDecision (greedyCosts s note mf sp).1 (greedyCosts s note mf sp).2
          s.leftHand.length s.rightHand.length = Hand.right →
        (greedyStep mf sp s note).leftHand = s.leftHand
        ∧ (greedyStep mf sp s note).rightHand = s.rightHand ++ [note]) := by
  constructor
  · intro costL costR nL nR
    unfold greedyDecision decisionRuleSpec
    rw [mul_comm costR (9/10), mul_comm costL (9/10)]
    split_ifs <;> first | rfl | (exfalso; omega)
  · intro mf sp s note
    constructor
    · intro hd
      unfold greedyStep
      generalize hc : greedyCosts s note mf sp = c at hd ⊢
      rw [hd]
      exact ⟨rfl, rfl⟩
    · intro hd
      unfold greedyStep
      generalize hc : greedyCosts s note mf sp = c at hd ⊢
      rw [hd]
      exact ⟨rfl, rfl⟩

/-- Witness for C3 at a concrete input: the cost pair `(0, 1)` and equal
counts give Left under both formulations, and for the note
`(50, 0, 10, 100)` from the empty state (where the decision is Left) the
step appends the note to the left hand only. -/
theorem C3_greedy_decision_rule_witness :
    greedyDecision 0 1 0 0 = decisionRuleSpec 0 1 0 0
    ∧ ((greedyStep 5 8 greedyInit ⟨50, 0, 10, 100⟩).leftHand
        = greedyInit.leftHand ++ [⟨50, 0, 10, 100⟩]
      ∧ (greedyStep 5 8 greedyInit ⟨50, 0, 10, 100⟩).rightHand
        = greedyInit.rightHand) :=
  ⟨C3_greedy_decision_rule.1 0 1 0 0,
   (C3_greedy_decision_rule.2 5 8 greedyInit ⟨50, 0, 10, 100⟩).1
     (by with_unfolding_all rfl)⟩

/-- Helper: distinct `Hand` constructors are not equal (for `simp`). -/
lemma hand_right_ne_left : (Hand.right = Hand.left) ↔ False :=
  ⟨fun h => Hand.noConfusion h, False.elim⟩

/-- Helper: distinct `Hand` constructors are not equal (for `simp`). -/
lemma hand_left_ne_right : (Hand.left = Hand.right) ↔ False :=
  ⟨fun h => Hand.noConfusion h, False.elim⟩

/-- Helper: `activeAssigned` distributes over key-list concatenation. -/
lemma activeAssigned_append (keys1 keys2 : List (Nat × Hand)) (hand : Hand)
    (prev : List Note) (t : ℚ) :
    activeAssigned (keys1 ++ keys2) hand prev t
      = activeAssigned keys1 hand prev t ++ activeAssigned keys2 hand prev t := by
  unfold activeAssigned
  rw [List.filterMap_append]

/-- Helper: a key whose index lies beyond `previous_notes` is skipped by
the guard of `activeAssigned` (line 189 of the source). -/
lemma activeAssigned_append_oob (keys : List (Nat × Hand)) (k : Nat × Hand)
    (hand : Hand) (prev : List Note) (t : ℚ) (hk : prev.length ≤ k.1) :
    activeAssigned (keys ++ [k]) hand prev t = activeAssigned keys hand prev t := by
  rw [activeAssigned_append]
  have h1 : ¬ (k.1 < prev.length) := not_lt.mpr hk
  simp [activeAssigned, List.filterMap_cons, h1]

/-- Helper: over the canonical key list (both hands present for every
index `j < i`), the active set of either hand is the full filter of the
first `i` previous notes by `offset > t`. -/
lemma activeAssigned_canon (hand : Hand) (prev : List Note) (t : ℚ) : ∀ (i : Nat),
    activeAssigned ((canonAssignments i).map (fun e => e.1)) hand prev t
      = (prev.take i).filter (fun m => decide (m.stop > t)) := by
  intro i
  induction i with
  | zero => rfl
  | succ i ih =>
      rw [show canonAssignments (i + 1)
          = canonAssignments i ++ [((i, Hand.left), Hand.left), ((i, Hand.right), Hand.left)]
        from rfl]
      rw [List.map_append, activeAssigned_append, ih, List.take_succ, List.filter_append]
      congr 1
      by_cases hi : i < prev.length
      · have hsome : prev[i]? = some (prev.get ⟨i, hi⟩) := by
          rw [List.getElem?_eq_getElem hi]
          rfl
        rw [hsome]
        cases hand <;>
          simp [activeAssigned, List.filterMap_cons, hi, hand_right_ne_left,
            hand_left_ne_right, List.filter_cons, List.get_eq_getElem] <;>
          split_ifs <;> rfl
      · have hnone : prev[i]? = none := by
          rw [List.getElem?_eq_none]
          omega
        rw [hnone]
        simp [activeAssigned, List.filterMap_cons, hi]

/-- Helper: the canonical key list contains both hands for every index
below its bound. -/
lemma canon_mem : ∀ (n j : Nat), j < n →
    (j, Hand.left) ∈ (canonAssignments n).map (fun e => e.1)
    ∧ (j, Hand.right) ∈ (canonAssignments n).map (fun e => e.1) := by
  intro n
  induction n with
  | zero => intro j h; exact absurd h (Nat.not_lt_zero j)
  | succ n ih =>
      intro j hj
      rw [show canonAssignments (n + 1)
          = canonAssignments n ++ [((n, Hand.left), Hand.left), ((n, Hand.right), Hand.left)]
        from rfl]
      rw [List.map_append]
      rcases Nat.lt_succ_iff_lt_or_eq.mp hj with h | h
      · exact ⟨List.mem_append_left _ (ih j h).1, List.mem_append_left _ (ih j h).2⟩
      · subst h
        exact ⟨List.mem_append_right _ (by simp), List.mem_append_right _ (by simp)⟩

/-- Helper: unrolling one iteration of the DP table fill. -/
lemma dpRun_succ (notes : List Note) (mf : Nat) (sp : Int) (i : Nat) :
    dpRun notes mf sp (i + 1) = dpStep notes mf sp (dpRun notes mf sp i) i := by
  unfold dpRun
  rw [List.range_succ, List.foldl_append]
  rfl

/-- Helper: a DP cell holds the minimum over the two predecessor
branches (the cost `c` is the same in both). -/
lemma dpCell_fst (a b c : ℚ) : (dpCell a b c).1 = min (a + c) (b + c) := by
  unfold dpCell
  split_ifs with h
  · exact (min_eq_right (le_of_lt h)).symm
  · exact (min_eq_left (not_lt.mp h)).symm

/-- Helper: the stored predecessor attains the DP cell's value. -/
lemma dpCell_pred (a b c : ℚ) :
    (dpCell a b c).1
      = (match (dpCell a b c).2 with
          | Hand.left => a
          | Hand.right => b) + c := by
  unfold dpCell
  split_ifs with h <;> rfl

/-- Helper: `calculate_cost` only reads the keys of the assignment
dictionary (the stored value is dead in the source loop). -/
lemma calculate_cost_keys {asg1 asg2 : List ((Nat × Hand) × Hand)} (note : Note)
    (hand : Hand) (prev : List Note) (mf : Nat) (sp : Int)
    (h : asg1.map (fun e => e.1) = asg2.map (fun e => e.1)) :
    calculate_cost note hand asg1 prev mf sp = calculate_cost note hand asg2 prev mf sp := by
  unfold calculate_cost
  rw [h]

/-- Helper: an appended entry with an out-of-range index does not change
`calculate_cost` (the guard of line 189). -/
lemma calculate_cost_oob (note : Note) (hand : Hand)
    (asg : List ((Nat × Hand) × Hand)) (k : (Nat × Hand) × Hand)
    (prev : List Note) (mf : Nat) (sp : Int) (hk : prev.length ≤ k.1.1) :
    calculate_cost note hand (asg ++ [k]) prev mf sp
      = calculate_cost note hand asg prev mf sp := by
  unfold calculate_cost
  rw [List.map_append, show List.map (fun e => e.1) [k] = [k.1] from rfl,
    activeAssigned_append_oob _ _ _ _ _ hk]

/-- Helper: one DP step, characterized through `dpCell` and
`dpCostModel` when the accumulated dictionary has the canonical keys. -/
lemma dpStep_char (notes : List Note) (mf : Nat) (sp : Int) (acc : DPState) (i : Nat)
    (hkeys : acc.assignments.map (fun e => e.1) = (canonAssignments i).map (fun e => e.1)) :
    (dpStep notes mf sp acc i).dpL
        = (dpCell acc.dpL acc.dpR (dpCostModel notes mf sp i Hand.left)).1
    ∧ (dpStep notes mf sp acc i).dpR
        = (dpCell acc.dpL acc.dpR (dpCostModel notes mf sp i Hand.right)).1
    ∧ (dpStep notes mf sp acc i).assignments
        = acc.assignments
          ++ [((i, Hand.left), (dpCell acc.dpL acc.dpR (dpCostModel notes mf sp i Hand.left)).2),
              ((i, Hand.right), (dpCell acc.dpL acc.dpR (dpCostModel notes mf sp i Hand.right)).2)] := by
  have hcL : calculate_cost (notes.getD i ⟨0, 0, 0, 0⟩) Hand.left acc.assignments
      (notes.take i) mf sp = dpCostModel notes mf sp i Hand.left := by
    unfold dpCostModel
    exact calculate_cost_keys _ _ _ _ _ hkeys
  have hcR : ∀ p : Hand, calculate_cost (notes.getD i ⟨0, 0, 0, 0⟩) Hand.right
      (acc.assignments ++ [((i, Hand.left), p)]) (notes.take i) mf sp
      = dpCostModel notes mf sp i Hand.right := by
    intro p
    rw [calculate_cost_oob _ _ _ _ _ _ _ (by rw [List.length_take]; exact min_le_left _ _)]
    unfold dpCostModel
    exact calculate_cost_keys _ _ _ _ _ hkeys
  refine ⟨?_, ?_, ?_⟩
  · simp only [dpStep]
    rw [hcL]
  · simp only [dpStep]
    rw [hcL, hcR]
  · simp only [dpStep]
    rw [hcL, hcR, List.append_assoc]
    rfl

/-- Helper: `min` on rationals distributes over adding a common summand
on the right. -/
lemma qmin_add_right (a b c : ℚ) : min (a + c) (b + c) = min a b + c := by
  rcases le_total a b with h | h
  · rw [min_eq_left h, min_eq_left (by linarith)]
  · rw [min_eq_right h, min_eq_right (by linarith)]

/-- Helper: `min` on rationals distributes over adding a common summand
on the left. -/
lemma qmin_add_left (m a b : ℚ) : min (m + a) (m + b) = m + min a b := by
  rcases le_total a b with h | h
  · rw [min_eq_left h, min_eq_left (by linarith)]
  · rw [min_eq_right h, min_eq_right (by linarith)]

/-- Helper: after `i` DP iterations the dictionary keys are canonical
(both hands for each processed index, in order) and the best table entry
equals the sum over processed indices of the per-index minimum cost. -/
lemma dpRun_invariant (notes : List Note) (mf : Nat) (sp : Int) : ∀ (i : Nat),
    (dpRun notes mf sp i).assignments.map (fun e => e.1)
        = (canonAssignments i).map (fun e => e.1)
    ∧ min (dpRun notes mf sp i).dpL (dpRun notes mf sp i).dpR
        = ((List.range i).map (fun j =>
            min (dpCostModel notes mf sp j Hand.left)
                (dpCostModel notes mf sp j Hand.right))).sum := by
  intro i
  induction i with
  | zero =>
      constructor
      · rfl
      · simp [dpRun, dpInit]
  | succ i ih =>
      obtain ⟨ihk, ihm⟩ := ih
      have hchar := dpStep_char notes mf sp (dpRun notes mf sp i) i ihk
      rw [dpRun_succ]
      constructor
      · rw [hchar.2.2, List.map_append, ihk,
          show canonAssignments (i + 1)
            = canonAssignments i ++ [((i, Hand.left), Hand.left), ((i, Hand.right), Hand.left)]
          from rfl,
          List.map_append]
        rfl
      · rw [hchar.1, hchar.2.1, dpCell_fst, dpCell_fst, qmin_add_right, qmin_add_right,
          qmin_add_left, ihm, List.range_succ, List.map_append, List.sum_append]
        simp

/-- C5: the DP engine's structure.  The base row is `0` for both hands;
each cell is the minimum over the two predecessor branches of
`dp[i-1][prev] + cost` with one shared cost per `(i, hand)` (the cost
argument of `dpCell` does not depend on the branch), and the stored
predecessor attains that minimum; the final output of the engine is
obtained by walking the stored predecessor map backward from
`(n-1, final_hand)` with `final_hand = Left` iff
`dp[n-1][Left] ≤ dp[n-1][Right]`. -/
theorem C5_dp_structure (notes : List Note) (mf : Nat) (sp : Int) (hne : notes ≠ []) :
    (dpInit.dpL = 0 ∧ dpInit.dpR = 0)
    ∧ (∀ a b c : ℚ, (dpCell a b c).1 = min (a + c) (b + c))
    ∧ (∀ a b c : ℚ,
        (dpCell a b c).1
          = (match (dpCell a b c).2 with
              | Hand.left => a
              | Hand.right => b) + c)
    ∧ dynamic_programming_assign_hands notes mf sp
        = splitByHand ((sortNotes notes).zip
            (backtrack (dpRun (sortNotes notes) mf sp (sortNotes notes).length).assignments
              ((sortNotes notes).length - 1)
              (if (dpRun (sortNotes notes) mf sp (sortNotes notes).length).dpL
                  ≤ (dpRun (sortNotes notes) mf sp (sortNotes notes).length).dpR
               then Hand.left else Hand.right))) := by
  refine ⟨⟨rfl, rfl⟩, dpCell_fst, dpCell_pred, ?_⟩
  have h0 : (sortNotes notes).length ≠ 0 := by
    have hlen : (sortNotes notes).length = notes.length := by
      simp [sortNotes, List.length_insertionSort]
    rw [hlen]
    simpa using hne
  simp only [dynamic_programming_assign_hands]
  rw [if_neg h0]

/-- Witness for C5 at the concrete one-note input `(60, 0, 10, 64)`. -/
theorem C5_dp_structure_witness :
    (dpInit.dpL = 0 ∧ dpInit.dpR = 0)
    ∧ (∀ a b c : ℚ, (dpCell a b c).1 = min (a + c) (b + c))
    ∧ (∀ a b c : ℚ,
        (dpCell a b c).1
          = (match (dpCell a b c).2 with
              | Hand.left => a
              | Hand.right => b) + c)
    ∧ dynamic_programming_assign_hands [⟨60, 0, 10, 64⟩] 5 8
        = splitByHand ((sortNotes [⟨60, 0, 10, 64⟩]).zip
            (backtrack (dpRun (sortNotes [⟨60, 0, 10, 64⟩]) 5 8
                (sortNotes [⟨60, 0, 10, 64⟩]).length).assignments
              ((sortNotes [⟨60, 0, 10, 64⟩]).length - 1)
              (if (dpRun (sortNotes [⟨60, 0, 10, 64⟩]) 5 8
                    (sortNotes [⟨60, 0, 10, 64⟩]).length).dpL
                  ≤ (dpRun (sortNotes [⟨60, 0, 10, 64⟩]) 5 8
                    (sortNotes [⟨60, 0, 10, 64⟩]).length).dpR
               then Hand.left else Hand.right))) :=
  C5_dp_structure [⟨60, 0, 10, 64⟩] 5 8 (List.cons_ne_nil _ _)

/-- C6 (amended): the DP engine's reported minimal cost is at most the
cumulative cost of the greedy engine's label sequence when that sequence
is priced under the DP engine's own cost model (`dpCostModel`, the
shared-history cost the DP recurrence uses).  Priced under each engine's
own cost accounting the claimed inequality fails on concrete inputs. -/
theorem C6_dp_cost_le_greedy_under_dp_model (notes : List Note) (mf : Nat) (sp : Int) :
    dpFinalCost notes mf sp
      ≤ dpPathCost (sortNotes notes) mf sp
          (greedyLabels mf sp greedyInit (sortNotes notes)) := by
  simp only [dpFinalCost, dpPathCost]
  rw [(dpRun_invariant (sortNotes notes) mf sp (sortNotes notes).length).2]
  apply List.sum_le_sum
  intro j hj
  cases hl : (greedyLabels mf sp greedyInit (sortNotes notes)).getD j Hand.left
  · exact min_le_left _ _
  · exact min_le_right _ _

/-- C10: in the DP loop a backtrack entry is recorded for both
`(i, Left)` and `(i, Right)` for every processed index, and therefore
the active set `calculate_cost` builds for note `k` — for either hand,
and also in the context where the `(k, Left)` entry is already present —
is the *full* list of earlier notes still sounding at `k`'s onset
(`activeSetSpec`), identical for the two hands: the cost history is
never a disjoint two-hand partition of the earlier notes. -/
theorem C10_dp_shared_history (notes : List Note) (mf : Nat) (sp : Int) (k : Nat)
    (hk : k < (sortNotes notes).length) :
    ((k, Hand.left) ∈ (dpRun (sortNotes notes) mf sp
        (sortNotes notes).length).assignments.map (fun e => e.1)
      ∧ (k, Hand.right) ∈ (dpRun (sortNotes notes) mf sp
        (sortNotes notes).length).assignments.map (fun e => e.1))
    ∧ (∀ hand : Hand,
        activeAssigned ((dpRun (sortNotes notes) mf sp k).assignments.map (fun e => e.1))
            hand ((sortNotes notes).take k)
            ((sortNotes notes).getD k ⟨0, 0, 0, 0⟩).start
          = activeSetSpec ((sortNotes notes).take k)
              ((sortNotes notes).getD k ⟨0, 0, 0, 0⟩).start)
    ∧ (∀ hand p : Hand,
        activeAssigned (((dpRun (sortNotes notes) mf sp k).assignments
              ++ [((k, Hand.left), p)]).map (fun e => e.1))
            hand ((sortNotes notes).take k)
            ((sortNotes notes).getD k ⟨0, 0, 0, 0⟩).start
          = activeSetSpec ((sortNotes notes).take k)
              ((sortNotes notes).getD k ⟨0, 0, 0, 0⟩).start) := by
  refine ⟨?_, ?_, ?_⟩
  · rw [(dpRun_invariant (sortNotes notes) mf sp (sortNotes notes).length).1]
    exact canon_mem _ k hk
  · intro hand
    rw [(dpRun_invariant (sortNotes notes) mf sp k).1, activeAssigned_canon,
      List.take_take, min_self]
    rfl
  · intro hand p
    rw [List.map_append, show List.map (fun e => e.1) [((k, Hand.left), p)]
        = [(k, Hand.left)] from rfl,
      activeAssigned_append_oob _ _ _ _ _ (by rw [List.length_take]; exact min_le_left _ _),
      (dpRun_invariant (sortNotes notes) mf sp k).1, activeAssigned_canon,
      List.take_take, min_self]
    rfl

/-- Witness for C10 at the concrete two-note input of the C6
counterexample, index `k = 1`. -/
theorem C10_dp_shared_history_witness :
    ((1, Hand.left) ∈ (dpRun (sortNotes [⟨60, 0, 10, 64⟩, ⟨72, 1/2, 10, 64⟩]) 5 8
        (sortNotes [⟨60, 0, 10, 64⟩, ⟨72, 1/2, 10, 64⟩]).length).assignments.map (fun e => e.1)
      ∧ (1, Hand.right) ∈ (dpRun (sortNotes [⟨60, 0, 10, 64⟩, ⟨72, 1/2, 10, 64⟩]) 5 8
        (sortNotes [⟨60, 0, 10, 64⟩, ⟨72, 1/2, 10, 64⟩]).length).assignments.map (fun e => e.1))
    ∧ (∀ hand : Hand,
        activeAssigned ((dpRun (sortNotes [⟨60, 0, 10, 64⟩, ⟨72, 1/2, 10, 64⟩]) 5 8
              1).assignments.map (fun e => e.1))
            hand ((sortNotes [⟨60, 0, 10, 64⟩, ⟨72, 1/2, 10, 64⟩]).take 1)
            ((sortNotes [⟨60, 0, 10, 64⟩, ⟨72, 1/2, 10, 64⟩]).getD 1 ⟨0, 0, 0, 0⟩).start
          = activeSetSpec ((sortNotes [⟨60, 0, 10, 64⟩, ⟨72, 1/2, 10, 64⟩]).take 1)
              ((sortNotes [⟨60, 0, 10, 64⟩, ⟨72, 1/2, 10, 64⟩]).getD 1 ⟨0, 0, 0, 0⟩).start)
    ∧ (∀ hand p : Hand,
        activeAssigned (List.map (fun e : (Nat × Hand) × Hand => e.1)
              ((dpRun (sortNotes [⟨60, 0, 10, 64⟩, ⟨72, 1/2, 10, 64⟩]) 5 8
                1).assignments ++ [((1, Hand.left), p)]))
            hand ((sortNotes [⟨60, 0, 10, 64⟩, ⟨72, 1/2, 10, 64⟩]).take 1)
            ((sortNotes [⟨60, 0, 10, 64⟩, ⟨72, 1/2, 10, 64⟩]).getD 1 ⟨0, 0, 0, 0⟩).start
          = activeSetSpec ((sortNotes [⟨60, 0, 10, 64⟩, ⟨72, 1/2, 10, 64⟩]).take 1)
              ((sortNotes [⟨60, 0, 10, 64⟩, ⟨72, 1/2, 10, 64⟩]).getD 1 ⟨0, 0, 0, 0⟩).start) :=
  C10_dp_shared_history [⟨60, 0, 10, 64⟩, ⟨72, 1/2, 10, 64⟩] 5 8 1
    (by
      have h2 : (sortNotes [⟨60, 0, 10, 64⟩, ⟨72, 1/2, 10, 64⟩]).length = 2 :=
        List.length_insertionSort noteKeyLE _
      omega)

/-- C8 (amended): neither engine validates its input; an input
containing a malformed note (non-positive duration or out-of-range
pitch) is still fully processed and partitioned by both engines. -/
theorem C8_no_ingestion_validation (notes : List Note) (mf : Nat) (sp : Int)
    (_h : ∃ nt ∈ notes, nt.stop ≤ nt.start ∨ nt.pitch < 0 ∨ 127 < nt.pitch) :
    (assign_notes_to_hands notes mf sp).1.length
        + (assign_notes_to_hands notes mf sp).2.length = notes.length
    ∧ (dynamic_programming_assign_hands notes mf sp).1.length
        + (dynamic_programming_assign_hands notes mf sp).2.length = notes.length :=
  ⟨(greedy_partition notes mf sp).1, (dp_partition notes mf sp).1⟩

/-- Witness for C8 (amended) at the malformed one-note input
`(60, 1, 1/2, 64)` (offset `1/2 ≤` onset `1`). -/
theorem C8_no_ingestion_validation_witness :
    (assign_notes_to_hands [⟨60, 1, 1/2, 64⟩] 5 8).1.length
        + (assign_notes_to_hands [⟨60, 1, 1/2, 64⟩] 5 8).2.length = 1
    ∧ (dynamic_programming_assign_hands [⟨60, 1, 1/2, 64⟩] 5 8).1.length
        + (dynamic_programming_assign_hands [⟨60, 1, 1/2, 64⟩] 5 8).2.length = 1 :=
  C8_no_ingestion_validation [⟨60, 1, 1/2, 64⟩] 5 8
    ⟨⟨60, 1, 1/2, 64⟩, by simp, Or.inl (by norm_num)⟩

end Separate
